import Mathlib

/-!
Verification development for the cerebro document-ingestion and
retrieval-augmented query pipelines.

The definitions below are shallow embeddings of:
  * the `search_chunks` SQL function (vector-index similarity search),
  * the `chunkText` word-window chunker of the processing edge functions,
  * the rerank / context / answer steps of the `query-rag` edge function,
  * the background ingestion orchestrator (`processInBackground`) of the
    `process-document` edge function, modelled as the sequence of store
    writes it performs.

Numbers that the source handles as floats are modelled as rationals (ℚ).
External collaborators (the vector-distance operator, the embedding and
completion services, the document store) are modelled as explicit
parameters / environment records, so every run of the embedded code is a
pure computation.  Recursive loops are written with an explicit fuel
argument (always instantiated so that the fuel is not exhausted on the
loop bounds the source guarantees) so that all definitions reduce inside
the kernel.
-/

namespace Cerebro

/-- Rational subtraction written through `mkRat` so that it reduces inside
the kernel; `ratSub_eq` proves it is ordinary subtraction. -/
def ratSub (a b : ℚ) : ℚ :=
  mkRat (a.num * (b.den : Int) - b.num * (a.den : Int)) (a.den * b.den)

theorem ratSub_eq (a b : ℚ) : ratSub a b = a - b := by
  have ha : (a.den : ℚ) ≠ 0 := Nat.cast_ne_zero.mpr a.den_nz
  have hb : (b.den : ℚ) ≠ 0 := Nat.cast_ne_zero.mpr b.den_nz
  conv_rhs => rw [← Rat.num_div_den a, ← Rat.num_div_den b]
  rw [div_sub_div _ _ ha hb]
  unfold ratSub
  rw [Rat.mkRat_eq_div]
  push_cast
  ring_nf

/-- JavaScript `String.prototype.includes`: `pat` occurs as a contiguous
substring of `s` (character-list level). -/
def strIncludesAux (pat : List Char) : List Char → Bool
  | [] => List.isPrefixOf pat []
  | c :: cs => List.isPrefixOf pat (c :: cs) || strIncludesAux pat cs

def strIncludes (s pat : String) : Bool :=
  strIncludesAux pat.toList s.toList

/-- JavaScript `text.substring(0, n)` (character level).  Written over
the character list so that it reduces in `n` steps bounded by the text
length. -/
def jsSubstring (s : String) (n : Nat) : String :=
  String.mk (s.toList.take n)

/-- JavaScript `Array.prototype.join(' ')`. -/
def joinSp : List String → String
  | [] => ""
  | [w] => w
  | w :: ws => w ++ " " ++ joinSp ws

/-- JavaScript `text.split(/\s+/)` (character-list level): splits on
maximal whitespace runs, producing an empty token at a boundary
whitespace run.  The fuel is one more than the number of characters
still to be consumed, which bounds the number of steps. -/
def jsSplitWsAux : Nat → List Char → List Char → List String
  | 0, _, _ => []
  | _ + 1, [], acc => [String.mk acc.reverse]
  | fuel + 1, c :: cs, acc =>
    if c.isWhitespace then
      String.mk acc.reverse ::
        jsSplitWsAux fuel (List.dropWhile Char.isWhitespace (c :: cs)) []
    else
      jsSplitWsAux fuel cs (c :: acc)

/-- JavaScript `text.split(/\s+/)`. -/
def jsSplitWs (text : String) : List String :=
  jsSplitWsAux (text.length + 1) text.toList []

/-! ### RAG configuration (supabase/functions/_shared/rag-config.ts) -/

def RAGConfig.embedding.batchSize : Nat := 3
def RAGConfig.processing.maxTextLength : Nat := 100000
def RAGConfig.processing.chunkSize : Nat := 150
def RAGConfig.processing.chunkOverlap : Nat := 30
/-- 0.25, written through `mkRat` so it reduces inside the kernel. -/
def RAGConfig.retrieval.initialMatchThreshold : ℚ := mkRat 25 100
def RAGConfig.retrieval.initialMatchCount : Nat := 15
/-- 0.28, written through `mkRat` so it reduces inside the kernel. -/
def RAGConfig.retrieval.rerankThreshold : ℚ := mkRat 28 100
def RAGConfig.retrieval.topChunksToUse : Nat := 8
def RAGConfig.prompts.noResultsResponse : String :=
  "I don\x27t have any information to answer that question. Could you upload more relevant documents or rephrase your question?"

theorem RAGConfig.retrieval.initialMatchThreshold_val :
    RAGConfig.retrieval.initialMatchThreshold = (0.25 : ℚ) := by
  norm_num [RAGConfig.retrieval.initialMatchThreshold, Rat.mkRat_eq_div]

theorem RAGConfig.retrieval.rerankThreshold_val :
    RAGConfig.retrieval.rerankThreshold = (0.28 : ℚ) := by
  norm_num [RAGConfig.retrieval.rerankThreshold, Rat.mkRat_eq_div]

/-! ### The chunker (`chunkText` in process-document/index.ts and its
historical revisions; identical text in all copies) -/

/-- One step of the `for (let i = 0; i < words.length; i += step)` loop of
`chunkText`: emit `words.slice(i, i + chunkSize).join(' ')` when it is a
non-empty string.  `step = chunkSize - overlap`.  The fuel bounds the
number of iterations; since every iteration advances `i` by `step ≥ 1`,
fuel `words.length - i` is always sufficient (with `step = 0` the source
loop would not terminate). -/
def chunkFromAux (words : List String) (chunkSize step : Nat) :
    Nat → Nat → List String
  | 0, _ => []
  | fuel + 1, i =>
    if i < words.length then
      let chunk := joinSp ((words.drop i).take chunkSize)
      (if chunk.length > 0 then [chunk] else []) ++
        chunkFromAux words chunkSize step fuel (i + step)
    else []

/-- `chunkText(text, chunkSize, overlap)` from the processing edge
functions: split on whitespace, then slide a `chunkSize`-word window
advancing by `chunkSize − overlap` words. -/
def chunkText (text : String) (chunkSize overlap : Nat) : List String :=
  let words := jsSplitWs text
  chunkFromAux words chunkSize (chunkSize - overlap) words.length 0

/-! ### Data model -/

/-- An embedding vector (`vector(1536)` in the store; the dimension plays
no role in the claims). -/
abbrev Emb := List ℚ

/-- The `metadata` jsonb attached to a chunk row (the pipelines store
`{ file_name, folder }`). -/
structure Metadata where
  file_name : Option String
  folder : Option String
deriving DecidableEq

/-- A row of `document_chunks`. -/
structure DBChunk where
  id : Nat
  document_id : Nat
  user_id : Nat
  chunk_text : String
  chunk_index : Nat
  embedding : Emb
  metadata : Metadata
deriving DecidableEq

/-- A row returned by `search_chunks` (its `RETURNS TABLE`; note it has no
`folder` column). -/
structure SearchRow where
  id : Nat
  document_id : Nat
  chunk_text : String
  chunk_index : Nat
  similarity : ℚ
  metadata : Metadata
deriving DecidableEq

/-! ### search_chunks (SQL function of the initial migration)

The pgvector cosine-distance operator is an external primitive of the
store; it is passed in as `cosineDistance`.  `ORDER BY ... LIMIT` is
modelled as a (stable) sort by ascending distance followed by `take`. -/

def search_chunks (cosineDistance : Emb → Emb → ℚ) (store : List DBChunk)
    (query_embedding : Emb) (match_threshold : ℚ) (match_count : Nat)
    (filter_user_id : Nat) : List SearchRow :=
  ((((store.filter (fun c =>
        decide (c.user_id = filter_user_id) &&
        decide (match_threshold < ratSub 1 (cosineDistance c.embedding query_embedding)))).insertionSort
      (fun a b =>
        cosineDistance a.embedding query_embedding ≤
        cosineDistance b.embedding query_embedding)).take match_count).map
    (fun c =>
      { id := c.id, document_id := c.document_id, chunk_text := c.chunk_text,
        chunk_index := c.chunk_index,
        similarity := ratSub 1 (cosineDistance c.embedding query_embedding),
        metadata := c.metadata }))

/-! ### Reranking (query-rag/index.ts, step 3)

`chunks.filter(c => c.similarity >= 0.28).sort((a,b) => b.similarity -
a.similarity).slice(0, 8)`.  JavaScript sort is stable, so the result is
the unique list ordered by (similarity descending, original position
ascending); the embedding tags each candidate with its retrieval
position. -/

def rerankRel (a b : Nat × SearchRow) : Prop :=
  b.2.similarity < a.2.similarity ∨
    (a.2.similarity = b.2.similarity ∧ a.1 ≤ b.1)

instance : DecidableRel rerankRel := fun a b => by
  unfold rerankRel; infer_instance

instance : IsTotal (Nat × SearchRow) rerankRel where
  total a b := by
    unfold rerankRel
    rcases lt_trichotomy a.2.similarity b.2.similarity with h | h | h
    · exact Or.inr (Or.inl h)
    · rcases Nat.le_total a.1 b.1 with hn | hn
      · exact Or.inl (Or.inr ⟨h, hn⟩)
      · exact Or.inr (Or.inr ⟨h.symm, hn⟩)
    · exact Or.inl (Or.inl h)

instance : IsTrans (Nat × SearchRow) rerankRel where
  trans a b c hab hbc := by
    unfold rerankRel at *
    rcases hab with h1 | ⟨h1, h1n⟩
    · rcases hbc with h2 | ⟨h2, _⟩
      · exact Or.inl (h2.trans h1)
      · exact Or.inl (h2 ▸ h1)
    · rcases hbc with h2 | ⟨h2, h2n⟩
      · exact Or.inl (h1 ▸ h2)
      · exact Or.inr ⟨h1.trans h2, h1n.trans h2n⟩

def rerankedPairs (chunks : List SearchRow) : List (Nat × SearchRow) :=
  ((chunks.enum.filter (fun p =>
      decide (RAGConfig.retrieval.rerankThreshold ≤ p.2.similarity))).insertionSort
    rerankRel).take RAGConfig.retrieval.topChunksToUse

def rerankedChunks (chunks : List SearchRow) : List SearchRow :=
  (rerankedPairs chunks).map Prod.snd

/-! ### query-rag (steps 4 and 5 and message persistence) -/

/-- An entry of the `sources` list returned to the caller. -/
structure Source where
  document_name : String
  folder : String
  similarity : ℚ
deriving DecidableEq

/-- A row inserted into `messages`. -/
structure Msg where
  conversation_id : Nat
  user_id : Nat
  role : String
  content : String
  sources : List Source
deriving DecidableEq

/-- A row of `documents` as selected for source resolution
(`id, file_name, folder`). -/
structure DocRec where
  id : Nat
  file_name : String
  folder : Option String
deriving DecidableEq

/-- Step 4 context block: fragments labelled
`[Source i] (From: folder / docName)` joined by blank lines. -/
def ragContext (rows : List SearchRow) : String :=
  String.intercalate "\n\n" (rows.enum.map (fun p =>
    "[Source " ++ toString (p.1 + 1) ++ "] (From: " ++
      p.2.metadata.folder.getD "Uncategorized" ++ " / " ++
      p.2.metadata.file_name.getD "Unknown" ++ ")\n" ++ p.2.chunk_text))

/-- The source list: each fragment resolved against the fetched document
rows, falling back to the fragment's cached metadata. -/
def ragSources (documents : List DocRec) (rows : List SearchRow) : List Source :=
  rows.map (fun c =>
    let doc := documents.find? (fun d => decide (d.id = c.document_id))
    { document_name := (doc.map DocRec.file_name).getD "Unknown",
      folder := ((doc.bind DocRec.folder).orElse
        (fun _ => c.metadata.folder)).getD "Uncategorized",
      similarity := c.similarity })

/-- The environment a single query-rag request runs against: the
conversation lookup, whether the query-embedding call succeeds, the rows
the similarity search returns, the document rows fetched for source
resolution, and the completion service's answer (`none` = non-success). -/
structure QueryEnv where
  conversation_id : Nat
  conversationUser : Option Nat
  embedOk : Bool
  searchResult : List SearchRow
  documents : List DocRec
  completion : Option String

inductive QueryResult
  | ok (answer : String) (sources : List Source)
  | err (msg : String)
deriving DecidableEq

/-- What one request produced: the HTTP-level result, the `messages` rows
inserted, and whether the completion service was called. -/
structure QueryOutcome where
  result : QueryResult
  inserted : List Msg
  completionCalled : Bool
deriving DecidableEq

/-- The query-rag handler (the rag-config revision of
query-rag/index.ts). -/
def queryRag (env : QueryEnv) : QueryOutcome :=
  match env.conversationUser with
  | none => ⟨.err "conversation lookup failed", [], false⟩
  | some userId =>
    if env.embedOk then
      if env.searchResult.isEmpty then
        ⟨.ok RAGConfig.prompts.noResultsResponse [],
          [⟨env.conversation_id, userId, "assistant",
            RAGConfig.prompts.noResultsResponse, []⟩], false⟩
      else
        let reranked := rerankedChunks env.searchResult
        let sources := ragSources env.documents reranked
        match env.completion with
        | none => ⟨.err "Failed to generate answer", [], true⟩
        | some answer =>
          ⟨.ok answer sources,
            [⟨env.conversation_id, userId, "assistant", answer, sources⟩], true⟩
    else ⟨.err "Failed to generate query embedding", [], false⟩

/-! ### The ingestion orchestrator
(`processInBackground` of process-document/index.ts, the
progress-tracking revision)

The orchestrator is modelled as the sequence of store writes it performs.
A partial `documents` update carries only the fields the source update
object mentions (`none` = field untouched); `error_message` is doubly
optional because the success write sets it to SQL `null`. -/

structure DocUpdate where
  processing_progress : Option Nat := none
  processing_stage : Option String := none
  status : Option String := none
  chunk_count : Option Nat := none
  text_length : Option Nat := none
  folder : Option String := none
  error_message : Option (Option String) := none
deriving DecidableEq

/-- A row inserted into `document_chunks` by the orchestrator.  The
embedding is `embeddingData.data[idx].embedding`, which is absent when the
service returned fewer vectors than the batch has chunks. -/
structure ChunkRowIns where
  document_id : Nat
  user_id : Nat
  chunk_text : String
  chunk_index : Nat
  token_count : Nat
  embedding : Option Emb
  folder : String
  metadata : Metadata
deriving DecidableEq

inductive Write
  | docUpdate (u : DocUpdate)
  | chunkInsert (rows : List ChunkRowIns)
deriving DecidableEq

/-- Outcome of one embedding-service batch call followed by the chunk
insert: success with the returned vectors, an HTTP-level non-success
status, a thrown transport error, or a failed insert. -/
inductive BatchOutcome
  | ok (embeddings : List Emb)
  | httpErr (status : Nat)
  | fetchFail (msg : String)
  | insertFail (msg : String)

structure DocInfo where
  user_id : Nat
  file_name : String
  file_type : String

/-- The external world one background run interacts with: the document
lookup, the result of the extraction branch (text, or the message of the
error it threw), the classification result (`none` = any classify
failure, which keeps the `Uncategorized` default), and the per-batch
embedding outcomes. -/
structure IngestEnv where
  documentId : Nat
  docLookup : Option DocInfo
  extractResult : Except String String
  classifyResult : Option String
  batchOutcome : Nat → BatchOutcome

/-- Classification of a non-success embedding-service response
(the `!embeddingResponse.ok` branch). -/
def embedErrorMessage (status : Nat) : String :=
  if status = 401 then "OpenAI API key is invalid or missing"
  else if status = 429 then "OpenAI API rate limit exceeded - please try again later"
  else "Failed to generate embeddings: " ++ toString status

/-- The catch-block mapping of a raw error message to the user-facing
`error_message`. -/
def normalizeErrorMessage (msg : String) : String :=
  if strIncludes msg "network" || strIncludes msg "fetch" then
    "Network error - check your connection and try again"
  else if strIncludes msg "timeout" then
    "Processing timeout - file may be too large"
  else msg

/-- The `{ processing_progress: ..., processing_stage: 'extracting' }`
update at the start of extraction. -/
def wExtracting : Write :=
  Write.docUpdate
    { processing_progress := some 10, processing_stage := some "extracting" }

def wChunking : Write :=
  Write.docUpdate
    { processing_progress := some 33, processing_stage := some "chunking" }

def wEmbedding : Write :=
  Write.docUpdate
    { processing_progress := some 50, processing_stage := some "embedding" }

/-- The per-batch progress update inside the embedding loop. -/
def wBatchProgress (p : Nat) : Write :=
  Write.docUpdate { processing_progress := some p }

/-- The final success update. -/
def wReady (chunkCount textLength : Nat) (folder : String) : Write :=
  Write.docUpdate
    { status := some "ready", chunk_count := some chunkCount,
      text_length := some textLength, folder := some folder,
      error_message := some none, processing_progress := some 100,
      processing_stage := some "complete" }

/-- The catch-block update. -/
def wError (msg : String) : Write :=
  Write.docUpdate
    { status := some "error", error_message := some (some msg) }

/-- `chunksToInsert` for the batch starting at `batchStart`: the rows the
orchestrator builds from `batch.map((chunk, idx) => ...)`, with
`chunk_index: i + idx` and `token_count: Math.ceil(chunk.length / 4)`.
`B` is the batch size (3 for documents, 10 in the URL pipeline). -/
def embedBatchRows (chunks : List String) (embs : List Emb)
    (B batchStart documentId userId : Nat) (fileName folder : String) :
    List ChunkRowIns :=
  ((chunks.drop batchStart).take B).enum.map (fun p =>
    { document_id := documentId, user_id := userId, chunk_text := p.2,
      chunk_index := batchStart + p.1, token_count := (p.2.length + 3) / 4,
      embedding := embs.get? p.1, folder := folder,
      metadata := { file_name := some fileName, folder := some folder } })

/-- The `for (let i = 0; i < chunks.length; i += batchSize)` embedding
loop, from start index `i`: write the batch progress
`50 + Math.floor(i / chunks.length * 45)`, call the embedding service,
then insert the batch's rows; any failure throws out of the loop.  The
fuel bounds the number of iterations (`chunks.length − i` suffices when
`B ≥ 1`; with `B = 0` the source loop would not terminate). -/
def embedLoopAux (outcome : Nat → BatchOutcome) (chunks : List String)
    (B documentId userId : Nat) (fileName folder : String) :
    Nat → Nat → List Write × Option String
  | 0, _ => ([], none)
  | fuel + 1, i =>
    if i < chunks.length then
      let wProg := wBatchProgress (50 + i * 45 / chunks.length)
      match outcome i with
      | .ok embs =>
        let rows := embedBatchRows chunks embs B i documentId userId fileName folder
        let rest := embedLoopAux outcome chunks B documentId userId fileName folder fuel (i + B)
        (wProg :: Write.chunkInsert rows :: rest.1, rest.2)
      | .httpErr status => ([wProg], some (embedErrorMessage status))
      | .fetchFail m => ([wProg], some m)
      | .insertFail m => ([wProg], some m)
    else ([], none)

def embedLoop (outcome : Nat → BatchOutcome) (chunks : List String)
    (B documentId userId : Nat) (fileName folder : String) :
    List Write × Option String :=
  embedLoopAux outcome chunks B documentId userId fileName folder chunks.length 0

/-- The try-block of `processInBackground`: the writes it performs and the
error it throws, if any. -/
def ingestBody (env : IngestEnv) : List Write × Option String :=
  match env.docLookup with
  | none => ([], some "Document not found")
  | some doc =>
    match env.extractResult with
    | .error e => ([wExtracting], some e)
    | .ok rawText =>
      let text := jsSubstring rawText 100000
      let folder := env.classifyResult.getD "Uncategorized"
      let chunks := chunkText text 150 30
      let loopRes := embedLoop env.batchOutcome chunks 3 env.documentId
        doc.user_id doc.file_name folder
      match loopRes.2 with
      | some e => (wExtracting :: wChunking :: wEmbedding :: loopRes.1, some e)
      | none =>
        (wExtracting :: wChunking :: wEmbedding :: (loopRes.1 ++
          [wReady chunks.length text.length folder]), none)

/-- The whole background task: the try block wrapped in the catch-all that
maps the thrown error to `status=error` plus a normalized
`error_message`.  Totality of this function is the embedding of "no
exception escapes the background task". -/
def processInBackground (env : IngestEnv) : List Write :=
  match ingestBody env with
  | (ws, none) => ws
  | (ws, some e) => ws ++ [wError (normalizeErrorMessage e)]

/-- The `processing_progress` values a write sequence sets, in order. -/
def progressValues (ws : List Write) : List Nat :=
  ws.filterMap (fun w => match w with
    | .docUpdate u => u.processing_progress
    | .chunkInsert _ => none)

/-- All chunk rows a write sequence inserts, in order. -/
def insertedRows (ws : List Write) : List ChunkRowIns :=
  ws.flatMap (fun w => match w with
    | .docUpdate _ => []
    | .chunkInsert rows => rows)

/-- The batch start indices `0, B, 2B, …` below `n` (same fuel device as
the loop itself). -/
def batchStartsAux (n B : Nat) : Nat → Nat → List Nat
  | 0, _ => []
  | fuel + 1, i => if i < n then i :: batchStartsAux n B fuel (i + B) else []

def batchStarts (n B : Nat) : List Nat := batchStartsAux n B n 0

/-! ## Claim theorems -/

/-- C8: a non-success embedding-service response is classified by status:
HTTP 401 yields the fatal invalid-credentials message, HTTP 429 yields
the rate-limited message surfaced to the user as "try again later", and
any other status yields the embedding-failed message with the status code
attached; the embedding loop throws exactly that classified message. -/
theorem embed_error_classification :
    embedErrorMessage 401 = "OpenAI API key is invalid or missing" ∧
    embedErrorMessage 429 =
      "OpenAI API rate limit exceeded - please try again later" ∧
    strIncludes (embedErrorMessage 429) "try again later" = true ∧
    (∀ status : Nat, status ≠ 401 → status ≠ 429 →
      embedErrorMessage status =
        "Failed to generate embeddings: " ++ toString status) ∧
    (∀ outcome chunks B documentId userId fileName folder fuel i status,
      i < List.length chunks →
      outcome i = BatchOutcome.httpErr status →
      (embedLoopAux outcome chunks B documentId userId fileName folder
          (fuel + 1) i).2 = some (embedErrorMessage status)) := by
  refine ⟨rfl, rfl, by decide, ?_, ?_⟩
  · intro s h1 h2
    simp [embedErrorMessage, h1, h2]
  · intro outcome chunks B documentId userId fileName folder fuel i status hi hout
    simp [embedLoopAux, hi, hout]

theorem embed_error_classification_witness :
    embedErrorMessage 500 = "Failed to generate embeddings: " ++ toString 500 ∧
    (embedLoopAux (fun _ => BatchOutcome.httpErr 429) ["c"] 3 1 2 "f" "g" 1 0).2 =
      some (embedErrorMessage 429) :=
  ⟨embed_error_classification.2.2.2.1 500 (by decide) (by decide),
    embed_error_classification.2.2.2.2 (fun _ => BatchOutcome.httpErr 429)
      ["c"] 3 1 2 "f" "g" 0 0 429 (by decide) rfl⟩

/-- C4: when the similarity search returns zero candidates, query-rag
short-circuits: it answers with the fixed no-information response and an
empty source list, inserts exactly one message — an assistant-role row
with that response and empty sources — and never calls the completion
service. -/
theorem queryRag_no_candidates (env : QueryEnv) (userId : Nat)
    (hconv : env.conversationUser = some userId)
    (hembed : env.embedOk = true)
    (hsearch : env.searchResult = []) :
    queryRag env =
      ⟨.ok RAGConfig.prompts.noResultsResponse [],
        [⟨env.conversation_id, userId, "assistant",
          RAGConfig.prompts.noResultsResponse, []⟩], false⟩ ∧
    (queryRag env).inserted.length = 1 ∧
    (queryRag env).completionCalled = false := by
  have h : queryRag env =
      ⟨.ok RAGConfig.prompts.noResultsResponse [],
        [⟨env.conversation_id, userId, "assistant",
          RAGConfig.prompts.noResultsResponse, []⟩], false⟩ := by
    simp [queryRag, hconv, hembed, hsearch]
  exact ⟨h, by rw [h]; rfl, by rw [h]⟩

def queryEnvNoHits : QueryEnv :=
  ⟨1, some 7, true, [], [], some "unused completion"⟩

theorem queryRag_no_candidates_witness :
    queryRag queryEnvNoHits =
      ⟨.ok RAGConfig.prompts.noResultsResponse [],
        [⟨1, 7, "assistant", RAGConfig.prompts.noResultsResponse, []⟩],
        false⟩ :=
  (queryRag_no_candidates queryEnvNoHits 7 rfl rfl rfl).1

/-- A concrete successful query run: one retrieved candidate above every
threshold, a matching document row, and a successful completion call. -/
def queryEnvSuccess : QueryEnv :=
  ⟨2, some 5, true,
    [⟨11, 3, "chunk body", 0, mkRat 9 10, ⟨some "doc.txt", some "Notes"⟩⟩],
    [⟨3, "doc.txt", some "Notes"⟩],
    some "The generated answer"⟩

/-- C5 counterexample: on a successful query, query-rag does NOT persist
the user's question and the answer as two ordered messages; at this
concrete successful run it inserts a single row, and that row's role is
not `user`. -/
theorem queryRag_two_messages_counterexample :
    ¬ ((queryRag queryEnvSuccess).inserted.length = 2 ∧
        ((queryRag queryEnvSuccess).inserted.head?.map Msg.role) =
          some "user") := by
  decide

/-- C5 (amended): on every successful query (candidates found, completion
succeeded) query-rag persists exactly one message: an assistant-role row
carrying the generated answer and its source list; the user's question is
persisted by the chat client before the function is invoked, not here. -/
theorem queryRag_success_single_assistant_message (env : QueryEnv)
    (userId : Nat) (answer : String)
    (hconv : env.conversationUser = some userId)
    (hembed : env.embedOk = true)
    (hsearch : env.searchResult ≠ [])
    (hcomp : env.completion = some answer) :
    queryRag env =
      ⟨.ok answer (ragSources env.documents (rerankedChunks env.searchResult)),
        [⟨env.conversation_id, userId, "assistant", answer,
          ragSources env.documents (rerankedChunks env.searchResult)⟩],
        true⟩ ∧
    (queryRag env).inserted.length = 1 ∧
    (∀ m ∈ (queryRag env).inserted, m.role = "assistant") := by
  have hne : env.searchResult.isEmpty = false := by
    cases h : env.searchResult with
    | nil => exact absurd h hsearch
    | cons a l => simp [h]
  have h : queryRag env =
      ⟨.ok answer (ragSources env.documents (rerankedChunks env.searchResult)),
        [⟨env.conversation_id, userId, "assistant", answer,
          ragSources env.documents (rerankedChunks env.searchResult)⟩],
        true⟩ := by
    simp [queryRag, hconv, hembed, hne, hcomp]
  refine ⟨h, by rw [h]; rfl, by rw [h]; intro m hm; simp at hm; rw [hm]⟩

theorem queryRag_success_single_assistant_message_witness :
    queryRag queryEnvSuccess =
      ⟨.ok "The generated answer"
          (ragSources queryEnvSuccess.documents
            (rerankedChunks queryEnvSuccess.searchResult)),
        [⟨2, 5, "assistant", "The generated answer",
          ragSources queryEnvSuccess.documents
            (rerankedChunks queryEnvSuccess.searchResult)⟩],
        true⟩ :=
  (queryRag_success_single_assistant_message queryEnvSuccess 5
    "The generated answer" rfl rfl (by decide) rfl).1

/-! ### C3: the reranker -/

/-- The candidates the stricter filter keeps but the top-K cut drops. -/
def rerankRest (chunks : List SearchRow) : List SearchRow :=
  (((chunks.enum.filter (fun p =>
      decide (RAGConfig.retrieval.rerankThreshold ≤ p.2.similarity))).insertionSort
    rerankRel).drop RAGConfig.retrieval.topChunksToUse).map Prod.snd

theorem enumFrom_filter_map_snd {α : Type _} (p : α → Bool) (l : List α) :
    ∀ n, ((List.enumFrom n l).filter (fun q => p q.2)).map Prod.snd =
      l.filter p := by
  induction l with
  | nil => intro n; rfl
  | cons a t ih =>
    intro n
    rw [List.enumFrom_cons]
    by_cases h : p a
    · simp [List.filter_cons, h, ih]
    · simp [List.filter_cons, h, ih]

def exampleC09 : SearchRow := ⟨1, 1, "a", 0, mkRat 9 10, ⟨none, none⟩⟩
def exampleC05 : SearchRow := ⟨2, 1, "b", 1, mkRat 5 10, ⟨none, none⟩⟩
def exampleC03 : SearchRow := ⟨3, 1, "c", 2, mkRat 3 10, ⟨none, none⟩⟩
def exampleC02 : SearchRow := ⟨4, 1, "d", 3, mkRat 2 10, ⟨none, none⟩⟩

def exampleCandidates : List SearchRow :=
  [exampleC09, exampleC05, exampleC03, exampleC02]

/-- C3: the reranker keeps exactly the candidates with similarity ≥ 0.28
(each kept fragment comes from the input), sorts them by similarity
descending with ties kept in original retrieval order (the kept pairs are
sorted under the lexicographic stable-sort order, their retrieval indices
are distinct and each indexes its fragment in the input), truncates to
the top 8, and every dropped filtered candidate has similarity no larger
than every kept one; in particular on similarities [0.9, 0.5, 0.3, 0.2]
it returns [0.9, 0.5, 0.3]. -/
theorem rerank_spec :
    (∀ l : List SearchRow,
      (∀ x ∈ rerankedChunks l,
        RAGConfig.retrieval.rerankThreshold ≤ x.similarity ∧ x ∈ l) ∧
      ((rerankedChunks l).map SearchRow.similarity).Sorted (· ≥ ·) ∧
      (rerankedChunks l).length =
        min (l.filter (fun c =>
          decide (RAGConfig.retrieval.rerankThreshold ≤ c.similarity))).length
          RAGConfig.retrieval.topChunksToUse ∧
      List.Pairwise rerankRel (rerankedPairs l) ∧
      ((rerankedPairs l).map Prod.fst).Nodup ∧
      (∀ p ∈ rerankedPairs l, l.get? p.1 = some p.2) ∧
      (l.filter (fun c =>
        decide (RAGConfig.retrieval.rerankThreshold ≤ c.similarity))).Perm
        (rerankedChunks l ++ rerankRest l) ∧
      (∀ y ∈ rerankRest l, ∀ x ∈ rerankedChunks l,
        y.similarity ≤ x.similarity)) ∧
    exampleCandidates.map SearchRow.similarity = [(0.9 : ℚ), 0.5, 0.3, 0.2] ∧
    (rerankedChunks exampleCandidates).map SearchRow.similarity =
      [(0.9 : ℚ), 0.5, 0.3] := by
  refine ⟨?_, ?_, ?_⟩
  · intro l
    have hperm := List.perm_insertionSort rerankRel
      (l.enum.filter (fun p =>
        decide (RAGConfig.retrieval.rerankThreshold ≤ p.2.similarity)))
    have hsorted := List.sorted_insertionSort rerankRel
      (l.enum.filter (fun p =>
        decide (RAGConfig.retrieval.rerankThreshold ≤ p.2.similarity)))
    have hmemPairs : ∀ p ∈ rerankedPairs l,
        p ∈ l.enum ∧ RAGConfig.retrieval.rerankThreshold ≤ p.2.similarity := by
      intro p hp
      have hpS := List.mem_of_mem_take hp
      have hpF := hperm.mem_iff.mp hpS
      obtain ⟨hpe, hpf⟩ := List.mem_filter.mp hpF
      exact ⟨hpe, of_decide_eq_true hpf⟩
    have hpairs : List.Pairwise rerankRel (rerankedPairs l) :=
      List.Pairwise.sublist (List.take_sublist _ _) hsorted
    have hfl : ((l.enum.filter (fun p =>
        decide (RAGConfig.retrieval.rerankThreshold ≤ p.2.similarity))).map
          Prod.snd) =
        l.filter (fun c =>
          decide (RAGConfig.retrieval.rerankThreshold ≤ c.similarity)) :=
      enumFrom_filter_map_snd
        (fun c => decide (RAGConfig.retrieval.rerankThreshold ≤ c.similarity)) l 0
    refine ⟨?_, ?_, ?_, hpairs, ?_, ?_, ?_, ?_⟩
    · intro x hx
      obtain ⟨p, hp, rfl⟩ := List.mem_map.mp hx
      obtain ⟨hpe, hth⟩ := hmemPairs p hp
      have hmem := List.mem_enum hpe
      exact ⟨hth, hmem.2 ▸ List.getElem_mem hmem.1⟩
    · have h1 : List.Pairwise
          (fun a b : Nat × SearchRow => b.2.similarity ≤ a.2.similarity)
          (rerankedPairs l) := by
        refine hpairs.imp ?_
        intro a b hab
        rcases hab with h | ⟨h, _⟩
        · exact le_of_lt h
        · exact le_of_eq h.symm
      unfold rerankedChunks
      rw [List.map_map]
      exact List.pairwise_map.mpr h1
    · unfold rerankedChunks rerankedPairs
      rw [List.length_map, List.length_take, hperm.length_eq]
      have : (l.enum.filter (fun p =>
          decide (RAGConfig.retrieval.rerankThreshold ≤ p.2.similarity))).length =
          (l.filter (fun c =>
            decide (RAGConfig.retrieval.rerankThreshold ≤ c.similarity))).length := by
        rw [← hfl, List.length_map]
      rw [this, Nat.min_comm]
    · have h1 : (l.enum.map Prod.fst).Nodup := by
        rw [List.enum_map_fst]; exact List.nodup_range _
      have h2 : ((l.enum.filter (fun p =>
          decide (RAGConfig.retrieval.rerankThreshold ≤ p.2.similarity))).map
            Prod.fst).Nodup :=
        List.Nodup.sublist ((List.filter_sublist _).map Prod.fst) h1
      have h3 : (((l.enum.filter (fun p =>
          decide (RAGConfig.retrieval.rerankThreshold ≤ p.2.similarity))).insertionSort
            rerankRel).map Prod.fst).Nodup :=
        ((hperm.map Prod.fst).nodup_iff).mpr h2
      exact List.Nodup.sublist ((List.take_sublist _ _).map Prod.fst) h3
    · intro p hp
      obtain ⟨hpe, _⟩ := hmemPairs p hp
      have hmem := List.mem_enum hpe
      rw [List.get?_eq_getElem?, List.getElem?_eq_getElem hmem.1]
      exact (congrArg some hmem.2).symm
    · have hsplit : rerankedChunks l ++ rerankRest l =
          ((l.enum.filter (fun p =>
            decide (RAGConfig.retrieval.rerankThreshold ≤ p.2.similarity))).insertionSort
              rerankRel).map Prod.snd := by
        unfold rerankedChunks rerankRest rerankedPairs
        rw [← List.map_append, List.take_append_drop]
      rw [hsplit, ← hfl]
      exact (hperm.map Prod.snd).symm
    · intro y hy x hx
      have hsp := hsorted
      rw [← List.take_append_drop RAGConfig.retrieval.topChunksToUse
        ((l.enum.filter (fun p =>
          decide (RAGConfig.retrieval.rerankThreshold ≤ p.2.similarity))).insertionSort
            rerankRel)] at hsp
      obtain ⟨-, -, hcross⟩ := List.pairwise_append.mp hsp
      obtain ⟨q, hq, rfl⟩ := List.mem_map.mp hy
      obtain ⟨p, hp, rfl⟩ := List.mem_map.mp hx
      have := hcross p hp q hq
      rcases this with h | ⟨h, _⟩
      · exact le_of_lt h
      · exact le_of_eq h.symm
  · have h0 : exampleCandidates.map SearchRow.similarity =
        [mkRat 9 10, mkRat 5 10, mkRat 3 10, mkRat 2 10] := by decide
    rw [h0]
    norm_num [Rat.mkRat_eq_div]
  · have h1 : (rerankedChunks exampleCandidates).map SearchRow.similarity =
        [mkRat 9 10, mkRat 5 10, mkRat 3 10] := by decide
    rw [h1]
    norm_num [Rat.mkRat_eq_div]

theorem rerank_spec_witness :
    RAGConfig.retrieval.rerankThreshold ≤ exampleC09.similarity ∧
    exampleC09 ∈ exampleCandidates :=
  (rerank_spec.1 exampleCandidates).1 exampleC09 (by decide)

/-! ### C1: the similarity-search primitive -/

/-- C1: every row `search_chunks` returns comes from a stored chunk owned
by `filter_user_id` (never another user's chunk), carries that chunk's
columns, has similarity `1 − cosineDistance(embedding, query)` strictly
above `match_threshold`; at most `match_count` rows are returned, and
they are ordered by descending similarity (equivalently ascending cosine
distance). -/
theorem search_chunks_spec :
    ∀ (cosineDistance : Emb → Emb → ℚ) (store : List DBChunk)
      (query_embedding : Emb) (match_threshold : ℚ) (match_count uid : Nat),
      (∀ r ∈ search_chunks cosineDistance store query_embedding
          match_threshold match_count uid,
        ∃ c ∈ store, c.user_id = uid ∧
          r.id = c.id ∧ r.document_id = c.document_id ∧
          r.chunk_text = c.chunk_text ∧ r.chunk_index = c.chunk_index ∧
          r.metadata = c.metadata ∧
          r.similarity = 1 - cosineDistance c.embedding query_embedding ∧
          match_threshold < r.similarity) ∧
      (search_chunks cosineDistance store query_embedding match_threshold
        match_count uid).length ≤ match_count ∧
      ((search_chunks cosineDistance store query_embedding match_threshold
        match_count uid).map SearchRow.similarity).Sorted (· ≥ ·) := by
  intro d store q θ k uid
  haveI hTot : IsTotal DBChunk
      (fun a b => d a.embedding q ≤ d b.embedding q) :=
    ⟨fun a b => le_total _ _⟩
  haveI hTrans : IsTrans DBChunk
      (fun a b => d a.embedding q ≤ d b.embedding q) :=
    ⟨fun _ _ _ hab hbc => le_trans hab hbc⟩
  have hperm := List.perm_insertionSort
    (fun a b : DBChunk => d a.embedding q ≤ d b.embedding q)
    (store.filter (fun c =>
      decide (c.user_id = uid) && decide (θ < ratSub 1 (d c.embedding q))))
  have hsorted := List.sorted_insertionSort
    (fun a b : DBChunk => d a.embedding q ≤ d b.embedding q)
    (store.filter (fun c =>
      decide (c.user_id = uid) && decide (θ < ratSub 1 (d c.embedding q))))
  refine ⟨?_, ?_, ?_⟩
  · intro r hr
    obtain ⟨c, hc, rfl⟩ := List.mem_map.mp hr
    have hcS := List.mem_of_mem_take hc
    have hcF := hperm.mem_iff.mp hcS
    obtain ⟨hcstore, hcp⟩ := List.mem_filter.mp hcF
    have h12 : c.user_id = uid ∧ θ < ratSub 1 (d c.embedding q) := by
      simpa using hcp
    refine ⟨c, hcstore, h12.1, rfl, rfl, rfl, rfl, rfl,
      ratSub_eq 1 (d c.embedding q), h12.2⟩
  · unfold search_chunks
    rw [List.length_map, List.length_take]
    exact min_le_left _ _
  · have htake : List.Pairwise
        (fun a b : DBChunk => d a.embedding q ≤ d b.embedding q)
        ((List.insertionSort
          (fun a b : DBChunk => d a.embedding q ≤ d b.embedding q)
          (store.filter (fun c =>
            decide (c.user_id = uid) &&
            decide (θ < ratSub 1 (d c.embedding q))))).take k) :=
      List.Pairwise.sublist (List.take_sublist _ _) hsorted
    unfold search_chunks
    rw [List.map_map]
    refine List.pairwise_map.mpr (htake.imp ?_)
    intro a b hab
    show ratSub 1 (d b.embedding q) ≤ ratSub 1 (d a.embedding q)
    rw [ratSub_eq, ratSub_eq]
    exact sub_le_sub_left hab 1

def witnessQuery : Emb := [1]

def witnessDist : Emb → Emb → ℚ :=
  fun a b => if a = b then 0 else mkRat 1 2

def witnessStore : List DBChunk :=
  [⟨1, 1, 5, "t1", 0, [1], ⟨some "f", none⟩⟩,
   ⟨2, 2, 6, "t2", 0, [2], ⟨none, none⟩⟩]

def witnessRow : SearchRow := ⟨1, 1, "t1", 0, ratSub 1 0, ⟨some "f", none⟩⟩

theorem search_chunks_spec_witness :
    ∃ c ∈ witnessStore, c.user_id = 5 ∧
      witnessRow.id = c.id ∧ witnessRow.document_id = c.document_id ∧
      witnessRow.chunk_text = c.chunk_text ∧
      witnessRow.chunk_index = c.chunk_index ∧
      witnessRow.metadata = c.metadata ∧
      witnessRow.similarity = 1 - witnessDist c.embedding witnessQuery ∧
      mkRat 1 4 < witnessRow.similarity :=
  (search_chunks_spec witnessDist witnessStore witnessQuery (mkRat 1 4)
    10 5).1 witnessRow (by decide)

/-! ### C6, C7, C9, C10: the ingestion orchestrator -/

/-- The (truncated) extracted text of a run, as the success path computes
it. -/
def ingestText (env : IngestEnv) : String :=
  match env.extractResult with
  | .ok rawText => jsSubstring rawText 100000
  | .error _ => ""

def ingestFolder (env : IngestEnv) : String :=
  env.classifyResult.getD "Uncategorized"

def ingestChunks (env : IngestEnv) : List String :=
  chunkText (ingestText env) 150 30

theorem embedLoopAux_stop (outcome : Nat → BatchOutcome)
    (chunks : List String) (B documentId userId : Nat)
    (fileName folder : String) (fuel i : Nat) (h : chunks.length ≤ i) :
    embedLoopAux outcome chunks B documentId userId fileName folder fuel i =
      ([], none) := by
  cases fuel with
  | zero => rfl
  | succ f => simp [embedLoopAux, Nat.not_lt.mpr h]

theorem batchStartsAux_stop (n B fuel i : Nat) (h : n ≤ i) :
    batchStartsAux n B fuel i = [] := by
  cases fuel with
  | zero => rfl
  | succ f => simp [batchStartsAux, Nat.not_lt.mpr h]

theorem mem_batchStartsAux (n B : Nat) :
    ∀ fuel i0 i, i ∈ batchStartsAux n B fuel i0 → i0 ≤ i ∧ i < n := by
  intro fuel
  induction fuel with
  | zero => intro i0 i h; simp [batchStartsAux] at h
  | succ f ih =>
    intro i0 i h
    by_cases hi : i0 < n
    · simp only [batchStartsAux, hi, if_pos, List.mem_cons] at h
      rcases h with rfl | h
      · exact ⟨le_refl _, hi⟩
      · obtain ⟨h1, h2⟩ := ih _ _ h
        exact ⟨le_trans (Nat.le_add_right i0 B) h1, h2⟩
    · simp [batchStartsAux, hi] at h

/-- C7: when any stage of a run fails (the try block throws `e`), the
catch block appends exactly one further write, setting `status=error` and
the normalized user-facing message while touching no other field: the
error write carries no `processing_progress` and no `processing_stage`,
so both stay at their last written values.  `processInBackground` being a
total function of the environment embeds the guarantee that no exception
escapes the background task. -/
theorem ingest_error_frame (env : IngestEnv) (e : String)
    (hfail : (ingestBody env).2 = some e) :
    processInBackground env = (ingestBody env).1 ++
      [Write.docUpdate
        { status := some "error",
          error_message := some (some (normalizeErrorMessage e)) }] ∧
    (∃ u, (processInBackground env).getLast? = some (Write.docUpdate u) ∧
      u.status = some "error" ∧
      u.error_message = some (some (normalizeErrorMessage e)) ∧
      u.processing_progress = none ∧ u.processing_stage = none ∧
      u.chunk_count = none ∧ u.text_length = none ∧ u.folder = none) := by
  obtain ⟨ws, hws⟩ : ∃ ws, ingestBody env = (ws, some e) :=
    ⟨(ingestBody env).1, by rw [← hfail]⟩
  have h1 : processInBackground env = ws ++
      [Write.docUpdate
        { status := some "error",
          error_message := some (some (normalizeErrorMessage e)) }] := by
    unfold processInBackground
    rw [hws]
    simp [wError]
  have hws1 : (ingestBody env).1 = ws := by rw [hws]
  refine ⟨by rw [h1, hws1],
    ⟨{ status := some "error",
       error_message := some (some (normalizeErrorMessage e)) },
      ?_, rfl, rfl, rfl, rfl, rfl, rfl, rfl⟩⟩
  rw [h1]
  simp [List.getLast?_append]

/-- A run that fails immediately: the document row is missing. -/
def ingestEnvFail : IngestEnv :=
  ⟨1, none, .error "unused", none, fun _ => .ok []⟩

theorem ingest_error_frame_witness :
    processInBackground ingestEnvFail = (ingestBody ingestEnvFail).1 ++
      [Write.docUpdate
        { status := some "error",
          error_message :=
            some (some (normalizeErrorMessage "Document not found")) }] :=
  (ingest_error_frame ingestEnvFail "Document not found" (by decide)).1

theorem embedLoopAux_progress_of_ok (outcome : Nat → BatchOutcome)
    (chunks : List String) (B documentId userId : Nat)
    (fileName folder : String) :
    ∀ fuel i,
      (embedLoopAux outcome chunks B documentId userId fileName folder
        fuel i).2 = none →
      progressValues (embedLoopAux outcome chunks B documentId userId
        fileName folder fuel i).1 =
        (batchStartsAux chunks.length B fuel i).map
          (fun j => 50 + j * 45 / chunks.length) := by
  intro fuel
  induction fuel with
  | zero => intro i _; rfl
  | succ f ih =>
    intro i h
    by_cases hi : i < chunks.length
    · cases hout : outcome i with
      | ok embs =>
        have h2 : (embedLoopAux outcome chunks B documentId userId
            fileName folder f (i + B)).2 = none := by
          simpa [embedLoopAux, hi, hout] using h
        have heq : progressValues (embedLoopAux outcome chunks B documentId
            userId fileName folder (f + 1) i).1 =
            (50 + i * 45 / chunks.length) ::
              progressValues (embedLoopAux outcome chunks B documentId
                userId fileName folder f (i + B)).1 := by
          simp [embedLoopAux, hi, hout, progressValues, wBatchProgress,
            List.filterMap_cons]
        rw [heq, ih _ h2, batchStartsAux]
        simp [hi]
      | httpErr s => simp [embedLoopAux, hi, hout] at h
      | fetchFail m => simp [embedLoopAux, hi, hout] at h
      | insertFail m => simp [embedLoopAux, hi, hout] at h
    · simp [embedLoopAux, hi, batchStartsAux, progressValues]

theorem embedLoopAux_progress_chain (outcome : Nat → BatchOutcome)
    (chunks : List String) (B documentId userId : Nat)
    (fileName folder : String) :
    ∀ fuel i,
      List.Chain' (· ≤ ·) (progressValues (embedLoopAux outcome chunks B
        documentId userId fileName folder fuel i).1) ∧
      ∀ p ∈ progressValues (embedLoopAux outcome chunks B documentId
          userId fileName folder fuel i).1,
        50 + i * 45 / chunks.length ≤ p ∧ p ≤ 95 := by
  intro fuel
  induction fuel with
  | zero =>
    intro i
    constructor
    · simp [embedLoopAux, progressValues]
    · intro p hp; simp [embedLoopAux, progressValues] at hp
  | succ f ih =>
    intro i
    by_cases hi : i < chunks.length
    · have hbound : 50 + i * 45 / chunks.length ≤ 95 := by
        have h1 : i * 45 ≤ chunks.length * 45 :=
          Nat.mul_le_mul_right _ (le_of_lt hi)
        have h2 : i * 45 / chunks.length ≤ 45 := Nat.div_le_of_le_mul h1
        omega
      cases hout : outcome i with
      | ok embs =>
        obtain ⟨ihc, ihb⟩ := ih (i + B)
        have hmono : 50 + i * 45 / chunks.length ≤
            50 + (i + B) * 45 / chunks.length := by
          have := Nat.div_le_div_right (c := chunks.length)
            (Nat.mul_le_mul_right 45 (Nat.le_add_right i B))
          omega
        have heq : progressValues (embedLoopAux outcome chunks B documentId
            userId fileName folder (f + 1) i).1 =
            (50 + i * 45 / chunks.length) ::
              progressValues (embedLoopAux outcome chunks B documentId
                userId fileName folder f (i + B)).1 := by
          simp [embedLoopAux, hi, hout, progressValues, wBatchProgress, List.filterMap_cons]
        rw [heq]
        constructor
        · refine List.chain'_cons'.mpr ⟨?_, ihc⟩
          intro y hy
          have hymem := List.mem_of_mem_head? hy
          exact le_trans hmono (ihb y hymem).1
        · intro p hp
          rcases List.mem_cons.mp hp with rfl | hp
          · exact ⟨le_refl _, hbound⟩
          · obtain ⟨hlb, hub⟩ := ihb p hp
            exact ⟨le_trans hmono hlb, hub⟩
      | httpErr s =>
        have heq : progressValues (embedLoopAux outcome chunks B documentId
            userId fileName folder (f + 1) i).1 =
            [50 + i * 45 / chunks.length] := by
          simp [embedLoopAux, hi, hout, progressValues, wBatchProgress, List.filterMap_cons]
        rw [heq]
        exact ⟨List.chain'_singleton _, by
          intro p hp
          rcases List.mem_singleton.mp hp with rfl
          exact ⟨le_refl _, hbound⟩⟩
      | fetchFail m =>
        have heq : progressValues (embedLoopAux outcome chunks B documentId
            userId fileName folder (f + 1) i).1 =
            [50 + i * 45 / chunks.length] := by
          simp [embedLoopAux, hi, hout, progressValues, wBatchProgress, List.filterMap_cons]
        rw [heq]
        exact ⟨List.chain'_singleton _, by
          intro p hp
          rcases List.mem_singleton.mp hp with rfl
          exact ⟨le_refl _, hbound⟩⟩
      | insertFail m =>
        have heq : progressValues (embedLoopAux outcome chunks B documentId
            userId fileName folder (f + 1) i).1 =
            [50 + i * 45 / chunks.length] := by
          simp [embedLoopAux, hi, hout, progressValues, wBatchProgress, List.filterMap_cons]
        rw [heq]
        exact ⟨List.chain'_singleton _, by
          intro p hp
          rcases List.mem_singleton.mp hp with rfl
          exact ⟨le_refl _, hbound⟩⟩
    · constructor
      · simp [embedLoopAux, hi, progressValues]
      · intro p hp; simp [embedLoopAux, hi, progressValues] at hp

theorem ingest_success_segments (outcome : Nat → BatchOutcome)
    (cs : List String) (documentId userId : Nat)
    (fileName folder : String) (textLen : Nat)
    (h2 : (embedLoop outcome cs 3 documentId userId fileName folder).2 = none) :
    progressValues ((wExtracting :: wChunking :: wEmbedding ::
        (embedLoop outcome cs 3 documentId userId fileName folder).1) ++
        [wReady cs.length textLen folder]) =
      [10, 33, 50] ++
        (batchStarts cs.length 3).map (fun i => 50 + i * 45 / cs.length) ++
        [100] ∧
    List.Chain' (· ≤ ·)
      (progressValues ((wExtracting :: wChunking :: wEmbedding ::
        (embedLoop outcome cs 3 documentId userId fileName folder).1) ++
        [wReady cs.length textLen folder])) := by
  have hps := embedLoopAux_progress_of_ok outcome cs 3 documentId userId
    fileName folder cs.length 0 h2
  have hchain := embedLoopAux_progress_chain outcome cs 3 documentId userId
    fileName folder cs.length 0
  have hlb : ∀ p ∈ progressValues (embedLoop outcome cs 3 documentId
      userId fileName folder).1, 50 ≤ p ∧ p ≤ 95 := by
    intro p hp
    have := (hchain.2) p hp
    simpa using this
  have hlw : progressValues ((wExtracting :: wChunking :: wEmbedding ::
      (embedLoop outcome cs 3 documentId userId fileName folder).1) ++
      [wReady cs.length textLen folder]) =
      10 :: 33 :: 50 ::
        (progressValues (embedLoop outcome cs 3 documentId userId fileName
          folder).1 ++ [100]) := by
    simp [progressValues, wExtracting, wChunking, wEmbedding, wReady,
      List.filterMap_append, List.filterMap_cons]
  constructor
  · rw [hlw]
    rw [show (embedLoop outcome cs 3 documentId userId fileName folder).1 =
      (embedLoopAux outcome cs 3 documentId userId fileName folder
        cs.length 0).1 from rfl]
    rw [hps, batchStarts]
    simp
  · rw [hlw]
    refine List.chain'_cons'.mpr ⟨by intro y hy; simp at hy; omega, ?_⟩
    refine List.chain'_cons'.mpr ⟨by intro y hy; simp at hy; omega, ?_⟩
    refine List.chain'_cons'.mpr ⟨?_, ?_⟩
    · intro y hy
      rw [List.head?_append] at hy
      rcases hop : (progressValues (embedLoop outcome cs 3 documentId userId
          fileName folder).1).head? with _ | p
      · rw [hop] at hy
        simp at hy
        omega
      · rw [hop] at hy
        simp at hy
        have hpm : p ∈ progressValues (embedLoop outcome cs 3 documentId
            userId fileName folder).1 :=
          List.mem_of_mem_head? (by rw [hop]; rfl)
        have := (hlb p hpm).1
        omega
    · refine List.chain'_append.mpr ⟨hchain.1, List.chain'_singleton _, ?_⟩
      intro x hx y hy
      simp at hy
      subst hy
      obtain ⟨hne, hxeq⟩ := List.mem_getLast?_eq_getLast hx
      have hxm : x ∈ progressValues (embedLoop outcome cs 3 documentId
          userId fileName folder).1 := by
        rw [hxeq]; exact List.getLast_mem hne
      have := (hlb x hxm).2
      omega

/-- C6: over one successful run the orchestrator's sequence of
`processing_progress` writes is exactly 10, 33, 50, the embedding-batch
values, then 100; that sequence is monotonically non-decreasing; and the
final write sets `processing_progress = 100` together with
`status = ready` and `processing_stage = complete` (recording chunk
count, text length and folder, and clearing any prior error). -/
theorem ingest_progress_monotone (env : IngestEnv)
    (hsucc : (ingestBody env).2 = none) :
    progressValues (processInBackground env) =
      [10, 33, 50] ++
        (batchStarts (ingestChunks env).length 3).map
          (fun i => 50 + i * 45 / (ingestChunks env).length) ++ [100] ∧
    List.Chain' (· ≤ ·) (progressValues (processInBackground env)) ∧
    (progressValues (processInBackground env)).getLast? = some 100 ∧
    (processInBackground env).getLast? =
      some (wReady (ingestChunks env).length (ingestText env).length
        (ingestFolder env)) := by
  cases hdoc : env.docLookup with
  | none => simp [ingestBody, hdoc] at hsucc
  | some d =>
    cases hext : env.extractResult with
    | error e => simp [ingestBody, hdoc, hext] at hsucc
    | ok rawText =>
      have hch : ingestChunks env = chunkText (jsSubstring rawText 100000) 150 30 := by
        simp [ingestChunks, ingestText, hext]
      have htx : ingestText env = jsSubstring rawText 100000 := by
        simp [ingestText, hext]
      have hfo : ingestFolder env = env.classifyResult.getD "Uncategorized" := rfl
      cases hloop : (embedLoop env.batchOutcome
          (chunkText (jsSubstring rawText 100000) 150 30) 3 env.documentId
          d.user_id d.file_name (env.classifyResult.getD "Uncategorized")).2 with
      | some e =>
        rw [show (ingestBody env).2 = some e from by
          simp [ingestBody, hdoc, hext, hloop]] at hsucc
        exact absurd hsucc (by simp)
      | none =>
        have hbody : ingestBody env =
            (wExtracting :: wChunking :: wEmbedding ::
              ((embedLoop env.batchOutcome
                (chunkText (jsSubstring rawText 100000) 150 30) 3 env.documentId
                d.user_id d.file_name
                (env.classifyResult.getD "Uncategorized")).1 ++
              [wReady (chunkText (jsSubstring rawText 100000) 150 30).length
                (jsSubstring rawText 100000).length
                (env.classifyResult.getD "Uncategorized")]), none) := by
          simp [ingestBody, hdoc, hext, hloop]
        have htrace : processInBackground env =
            (wExtracting :: wChunking :: wEmbedding ::
              (embedLoop env.batchOutcome
                (chunkText (jsSubstring rawText 100000) 150 30) 3 env.documentId
                d.user_id d.file_name
                (env.classifyResult.getD "Uncategorized")).1) ++
            [wReady (chunkText (jsSubstring rawText 100000) 150 30).length
              (jsSubstring rawText 100000).length
              (env.classifyResult.getD "Uncategorized")] := by
          unfold processInBackground
          rw [hbody]
          simp [List.cons_append]
        have hseg := ingest_success_segments env.batchOutcome
          (chunkText (jsSubstring rawText 100000) 150 30) env.documentId
          d.user_id d.file_name (env.classifyResult.getD "Uncategorized")
          (jsSubstring rawText 100000).length hloop
        refine ⟨?_, ?_, ?_, ?_⟩
        · rw [htrace, hch]
          exact hseg.1
        · rw [htrace]
          exact hseg.2
        · rw [htrace, hseg.1, List.getLast?_append]
          rfl
        · rw [htrace, List.getLast?_append, hch, htx, hfo]
          simp

/-- A fully successful concrete run: document present, plain text
extracted, classification succeeds, every embedding batch succeeds. -/
def ingestEnvSuccess : IngestEnv :=
  ⟨1, some ⟨7, "f.txt", "text/plain"⟩, .ok "hello world", some "Notes",
    fun _ => .ok [[mkRat 1 2]]⟩

theorem ingest_progress_monotone_witness :
    List.Chain' (· ≤ ·) (progressValues (processInBackground ingestEnvSuccess)) ∧
    (progressValues (processInBackground ingestEnvSuccess)).getLast? =
      some 100 :=
  ⟨(ingest_progress_monotone ingestEnvSuccess (by decide)).2.1,
    (ingest_progress_monotone ingestEnvSuccess (by decide)).2.2.1⟩

/-! ### C9: the embedding stage -/

/-- The rows the batch starting at `i` inserts (empty when that batch's
service call or insert failed). -/
def rowsAt (outcome : Nat → BatchOutcome) (chunks : List String)
    (B documentId userId : Nat) (fileName folder : String) (i : Nat) :
    List ChunkRowIns :=
  match outcome i with
  | .ok embs => embedBatchRows chunks embs B i documentId userId fileName folder
  | _ => []

theorem embedBatchRows_map_text (chunks : List String) (embs : List Emb)
    (B i documentId userId : Nat) (fileName folder : String) :
    (embedBatchRows chunks embs B i documentId userId fileName
      folder).map ChunkRowIns.chunk_text = (chunks.drop i).take B := by
  unfold embedBatchRows
  rw [List.map_map]
  have h : (ChunkRowIns.chunk_text ∘ fun p : Nat × String =>
      ({ document_id := documentId, user_id := userId, chunk_text := p.2,
         chunk_index := i + p.1, token_count := (p.2.length + 3) / 4,
         embedding := embs.get? p.1, folder := folder,
         metadata := { file_name := some fileName, folder := some folder } }
        : ChunkRowIns)) = Prod.snd := rfl
  rw [h, List.enum_map_snd]

theorem embedLoopAux_outcome_ok (outcome : Nat → BatchOutcome)
    (chunks : List String) (B documentId userId : Nat)
    (fileName folder : String) :
    ∀ fuel i,
      (embedLoopAux outcome chunks B documentId userId fileName folder
        fuel i).2 = none →
      ∀ j ∈ batchStartsAux chunks.length B fuel i,
        ∃ embs, outcome j = BatchOutcome.ok embs := by
  intro fuel
  induction fuel with
  | zero => intro i _ j hj; simp [batchStartsAux] at hj
  | succ f ih =>
    intro i h j hj
    by_cases hi : i < chunks.length
    · cases hout : outcome i with
      | ok embs =>
        have h2 : (embedLoopAux outcome chunks B documentId userId
            fileName folder f (i + B)).2 = none := by
          simpa [embedLoopAux, hi, hout] using h
        simp only [batchStartsAux, hi, if_pos, List.mem_cons] at hj
        rcases hj with rfl | hj
        · exact ⟨embs, hout⟩
        · exact ih _ h2 j hj
      | httpErr s => simp [embedLoopAux, hi, hout] at h
      | fetchFail m => simp [embedLoopAux, hi, hout] at h
      | insertFail m => simp [embedLoopAux, hi, hout] at h
    · simp [batchStartsAux, hi] at hj

theorem embedLoopAux_writes_of_ok (outcome : Nat → BatchOutcome)
    (chunks : List String) (B documentId userId : Nat)
    (fileName folder : String) :
    ∀ fuel i,
      (embedLoopAux outcome chunks B documentId userId fileName folder
        fuel i).2 = none →
      (embedLoopAux outcome chunks B documentId userId fileName folder
        fuel i).1 =
        (batchStartsAux chunks.length B fuel i).flatMap (fun j =>
          [wBatchProgress (50 + j * 45 / chunks.length),
           Write.chunkInsert (rowsAt outcome chunks B documentId userId
             fileName folder j)]) := by
  intro fuel
  induction fuel with
  | zero => intro i _; rfl
  | succ f ih =>
    intro i h
    by_cases hi : i < chunks.length
    · cases hout : outcome i with
      | ok embs =>
        have h2 : (embedLoopAux outcome chunks B documentId userId
            fileName folder f (i + B)).2 = none := by
          simpa [embedLoopAux, hi, hout] using h
        have hrows : rowsAt outcome chunks B documentId userId fileName
            folder i = embedBatchRows chunks embs B i documentId userId
            fileName folder := by
          simp [rowsAt, hout]
        have heq : (embedLoopAux outcome chunks B documentId userId
            fileName folder (f + 1) i).1 =
            wBatchProgress (50 + i * 45 / chunks.length) ::
            Write.chunkInsert (embedBatchRows chunks embs B i documentId
              userId fileName folder) ::
            (embedLoopAux outcome chunks B documentId userId fileName
              folder f (i + B)).1 := by
          simp [embedLoopAux, hi, hout]
        rw [heq, ih _ h2]
        simp only [batchStartsAux, hi, if_pos, List.flatMap_cons, hrows]
        rfl
      | httpErr s => simp [embedLoopAux, hi, hout] at h
      | fetchFail m => simp [embedLoopAux, hi, hout] at h
      | insertFail m => simp [embedLoopAux, hi, hout] at h
    · simp [embedLoopAux, hi, batchStartsAux]

/-- C9: on a successful run the embedding stage partitions the chunks
into consecutive batches of at most 3; its write sequence is exactly, per
batch starting at chunk `i` of `totalChunks`, the progress update
`50 + floor(i / totalChunks * 45)` immediately followed by that batch's
chunk insert (so each batch is persisted right after its embeddings are
obtained, not after all batches complete); and every such progress value
lies in [50, 95]. -/
theorem embedding_stage_spec (outcome : Nat → BatchOutcome)
    (chunks : List String) (documentId userId : Nat)
    (fileName folder : String)
    (hsucc : (embedLoop outcome chunks 3 documentId userId fileName
      folder).2 = none) :
    (embedLoop outcome chunks 3 documentId userId fileName folder).1 =
      (batchStarts chunks.length 3).flatMap (fun i =>
        [wBatchProgress (50 + i * 45 / chunks.length),
         Write.chunkInsert (rowsAt outcome chunks 3 documentId userId
           fileName folder i)]) ∧
    (∀ i ∈ batchStarts chunks.length 3,
      (rowsAt outcome chunks 3 documentId userId fileName folder i).map
        ChunkRowIns.chunk_text = (chunks.drop i).take 3 ∧
      (rowsAt outcome chunks 3 documentId userId fileName folder i).length =
        min 3 (chunks.length - i) ∧
      (rowsAt outcome chunks 3 documentId userId fileName folder i).length ≤ 3 ∧
      50 ≤ 50 + i * 45 / chunks.length ∧
      50 + i * 45 / chunks.length ≤ 95) := by
  constructor
  · exact embedLoopAux_writes_of_ok outcome chunks 3 documentId userId
      fileName folder chunks.length 0 hsucc
  · intro i hi
    obtain ⟨embs, hout⟩ := embedLoopAux_outcome_ok outcome chunks 3
      documentId userId fileName folder chunks.length 0 hsucc i hi
    have hrows : rowsAt outcome chunks 3 documentId userId fileName
        folder i = embedBatchRows chunks embs 3 i documentId userId
        fileName folder := by
      simp [rowsAt, hout]
    have hmem := mem_batchStartsAux chunks.length 3 chunks.length 0 i hi
    have hlen : (embedBatchRows chunks embs 3 i documentId userId fileName
        folder).length = min 3 (chunks.length - i) := by
      simp [embedBatchRows, List.enum_length]
    refine ⟨by rw [hrows]; exact embedBatchRows_map_text _ _ _ _ _ _ _ _,
      by rw [hrows]; exact hlen, by rw [hrows, hlen]; omega,
      Nat.le_add_right _ _, ?_⟩
    have h1 : i * 45 ≤ chunks.length * 45 :=
      Nat.mul_le_mul_right _ (le_of_lt hmem.2)
    have h2 : i * 45 / chunks.length ≤ 45 := Nat.div_le_of_le_mul h1
    omega

/-- A concrete successful embedding stage over four chunks: two batches,
starting at chunks 0 and 3. -/
theorem embedding_stage_spec_witness :
    (embedLoop (fun _ => BatchOutcome.ok [[1], [1], [1]])
      ["a", "b", "c", "d"] 3 1 2 "f.txt" "Notes").1 =
      (batchStarts 4 3).flatMap (fun i =>
        [wBatchProgress (50 + i * 45 / 4),
         Write.chunkInsert (rowsAt (fun _ => BatchOutcome.ok [[1], [1], [1]])
           ["a", "b", "c", "d"] 3 1 2 "f.txt" "Notes" i)]) :=
  (embedding_stage_spec (fun _ => BatchOutcome.ok [[1], [1], [1]])
    ["a", "b", "c", "d"] 1 2 "f.txt" "Notes" (by decide)).1

/-! ### C10: chunk_index and token_count of every persisted row -/

theorem tokenCount_eq_ceil (l : Nat) : (l + 3) / 4 = ⌈(l : ℚ) / 4⌉₊ := by
  rcases Nat.eq_zero_or_pos l with rfl | hl
  · simp
  · have hn : (l + 3) / 4 ≠ 0 := by omega
    rw [eq_comm, Nat.ceil_eq_iff hn]
    constructor
    · rw [lt_div_iff (by norm_num : (0:ℚ) < 4)]
      have h1 : ((l + 3) / 4 - 1) * 4 < l := by omega
      exact_mod_cast h1
    · rw [div_le_iff (by norm_num : (0:ℚ) < 4)]
      have h2 : l ≤ ((l + 3) / 4) * 4 := by omega
      exact_mod_cast h2

theorem embedLoopAux_rows_enum (outcome : Nat → BatchOutcome)
    (chunks : List String) (B documentId userId : Nat)
    (fileName folder : String) (hB : 1 ≤ B) :
    ∀ fuel i, chunks.length ≤ fuel + i →
      ∀ j r, (insertedRows (embedLoopAux outcome chunks B documentId
          userId fileName folder fuel i).1).get? j = some r →
        r.chunk_index = i + j ∧
        r.token_count = (r.chunk_text.length + 3) / 4 ∧
        chunks.get? (i + j) = some r.chunk_text := by
  intro fuel
  induction fuel with
  | zero =>
    intro i hfi j r hr
    simp [embedLoopAux, insertedRows] at hr
  | succ f ih =>
    intro i hfi j r hr
    by_cases hi : i < chunks.length
    · cases hout : outcome i with
      | ok embs =>
        have heq : insertedRows (embedLoopAux outcome chunks B documentId
            userId fileName folder (f + 1) i).1 =
            embedBatchRows chunks embs B i documentId userId fileName
              folder ++
            insertedRows (embedLoopAux outcome chunks B documentId userId
              fileName folder f (i + B)).1 := by
          simp [embedLoopAux, hi, hout, insertedRows, wBatchProgress]
        rw [heq] at hr
        have hlen : (embedBatchRows chunks embs B i documentId userId
            fileName folder).length = min B (chunks.length - i) := by
          simp [embedBatchRows, List.enum_length]
        by_cases hj : j < (embedBatchRows chunks embs B i documentId
            userId fileName folder).length
        · rw [List.get?_append hj] at hr
          have hjw : j < ((chunks.drop i).take B).length := by
            simp only [List.length_take, List.length_drop]
            rw [hlen] at hj
            omega
          have hbound : i + j < chunks.length := by
            simp only [List.length_take, List.length_drop] at hjw
            omega
          rw [List.get?_eq_getElem?] at hr
          unfold embedBatchRows at hr
          rw [List.getElem?_map, List.getElem?_enum,
            List.getElem?_eq_getElem hjw] at hr
          have hwj : ((chunks.drop i).take B)[j] = chunks[i + j] := by
            rw [List.getElem_take, List.getElem_drop]
          have hr2 := Option.some.inj hr
          subst hr2
          refine ⟨rfl, rfl, ?_⟩
          rw [List.get?_eq_getElem?, List.getElem?_eq_getElem hbound]
          show some chunks[i + j] = some ((chunks.drop i).take B)[j]
          rw [hwj]
        · rw [List.get?_append_right (Nat.le_of_not_lt hj)] at hr
          by_cases hfull : i + B ≤ chunks.length
          · have hlenB : (embedBatchRows chunks embs B i documentId userId
                fileName folder).length = B := by
              rw [hlen]; omega
            obtain ⟨h1, h2, h3⟩ := ih (i + B) (by omega) _ r hr
            rw [hlenB] at h1 h3
            have hjB : B ≤ j := by rw [hlenB] at hj; omega
            have hidx : i + B + (j - B) = i + j := by omega
            rw [hidx] at h1 h3
            exact ⟨h1, h2, h3⟩
          · have hstop := embedLoopAux_stop outcome chunks B documentId
              userId fileName folder f (i + B) (by omega)
            rw [hstop] at hr
            simp [insertedRows] at hr
      | httpErr s =>
        have heq : insertedRows (embedLoopAux outcome chunks B documentId
            userId fileName folder (f + 1) i).1 = [] := by
          simp [embedLoopAux, hi, hout, insertedRows, wBatchProgress]
        rw [heq] at hr
        simp at hr
      | fetchFail m =>
        have heq : insertedRows (embedLoopAux outcome chunks B documentId
            userId fileName folder (f + 1) i).1 = [] := by
          simp [embedLoopAux, hi, hout, insertedRows, wBatchProgress]
        rw [heq] at hr
        simp at hr
      | insertFail m =>
        have heq : insertedRows (embedLoopAux outcome chunks B documentId
            userId fileName folder (f + 1) i).1 = [] := by
          simp [embedLoopAux, hi, hout, insertedRows, wBatchProgress]
        rw [heq] at hr
        simp at hr
    · have hstop := embedLoopAux_stop outcome chunks B documentId userId
        fileName folder (f + 1) i (Nat.le_of_not_lt hi)
      rw [hstop] at hr
      simp [insertedRows] at hr

/-- C10: every chunk row the embedding loop persists (for any batch size
`B ≥ 1`; the document pipeline uses `B = 3`, the URL pipeline the same
construction with `B = 10`) stores `token_count =
ceil(length(chunk_text) / 4)` and `chunk_index` equal to its global
emission position: the rows inserted across all batches enumerate
`0, 1, 2, …` in order, with the j-th row carrying the j-th chunk's
text. -/
theorem inserted_rows_enumeration (outcome : Nat → BatchOutcome)
    (chunks : List String) (B documentId userId : Nat)
    (fileName folder : String) (hB : 1 ≤ B) :
    ∀ j r, (insertedRows (embedLoop outcome chunks B documentId userId
        fileName folder).1).get? j = some r →
      r.chunk_index = j ∧
      r.token_count = (r.chunk_text.length + 3) / 4 ∧
      r.token_count = ⌈(r.chunk_text.length : ℚ) / 4⌉₊ ∧
      chunks.get? j = some r.chunk_text := by
  intro j r hr
  obtain ⟨h1, h2, h3⟩ := embedLoopAux_rows_enum outcome chunks B documentId
    userId fileName folder hB chunks.length 0 (by omega) j r hr
  refine ⟨by simpa using h1, h2, ?_, by simpa using h3⟩
  rw [h2]
  exact tokenCount_eq_ceil _

def loopWitnessRow : ChunkRowIns :=
  { document_id := 1, user_id := 2, chunk_text := "d", chunk_index := 3,
    token_count := 1, embedding := some [1], folder := "Notes",
    metadata := { file_name := some "f.txt", folder := some "Notes" } }

theorem inserted_rows_enumeration_witness :
    loopWitnessRow.chunk_index = 3 ∧
    loopWitnessRow.token_count = (loopWitnessRow.chunk_text.length + 3) / 4 ∧
    loopWitnessRow.token_count = ⌈(loopWitnessRow.chunk_text.length : ℚ) / 4⌉₊ ∧
    (["a", "b", "c", "d"] : List String).get? 3 =
      some loopWitnessRow.chunk_text :=
  inserted_rows_enumeration (fun _ => BatchOutcome.ok [[1], [1], [1]])
    ["a", "b", "c", "d"] 3 1 2 "f.txt" "Notes" (by decide) 3 loopWitnessRow
    (by decide)

/-! ### C2: the chunker -/

theorem strLengthPos (s : String) (h : s ≠ "") : 0 < s.length := by
  cases s with
  | mk data =>
    cases data with
    | nil => simp at h
    | cons c cs => simp [String.length]

theorem joinSp_length_pos (w : String) (ws : List String)
    (h : 0 < w.length) : 0 < (joinSp (w :: ws)).length := by
  cases ws with
  | nil => simpa [joinSp] using h
  | cons x t =>
    show 0 < (w ++ " " ++ joinSp (x :: t)).length
    rw [String.length_append, String.length_append]
    omega

/-- A word window emitted while `i < words.length` is a non-empty string
(given a window of at least one word and no empty words). -/
theorem window_nonempty (words : List String) (i W : Nat)
    (hi : i < words.length) (hW : 1 ≤ W)
    (hw : ∀ w ∈ words, w ≠ "") :
    0 < (joinSp ((words.drop i).take W)).length := by
  have hd : words.drop i ≠ [] := by
    rw [Ne, List.drop_eq_nil_iff_le]
    omega
  obtain ⟨a, t, hat⟩ := List.exists_cons_of_ne_nil hd
  have ha : a ∈ words := by
    have hm : a ∈ words.drop i := by
      rw [hat]; exact List.mem_cons_self a t
    exact List.mem_of_mem_drop hm
  obtain ⟨W2, rfl⟩ : ∃ W2, W = W2 + 1 := ⟨W - 1, by omega⟩
  rw [hat, List.take_succ_cons]
  exact joinSp_length_pos a _ (strLengthPos a (hw a ha))

/-- The chunk loop from index `i < N` emits exactly the windows at
`i, i + step, i + 2·step, …`: `ceil((N − i) / step)` of them, none
skipped. -/
theorem chunkFromAux_eq (words : List String) (W step : Nat)
    (hW : 1 ≤ W) (hstep : 1 ≤ step) (hw : ∀ w ∈ words, w ≠ "") :
    ∀ fuel i, words.length ≤ fuel + i → i < words.length →
      chunkFromAux words W step fuel i =
        (List.range ((words.length - i - 1) / step + 1)).map
          (fun k => joinSp ((words.drop (i + k * step)).take W)) := by
  intro fuel
  induction fuel with
  | zero => intro i hfi hi; omega
  | succ f ih =>
    intro i hfi hi
    have hchunk : 0 < (joinSp ((words.drop i).take W)).length :=
      window_nonempty words i W hi hW hw
    have hstepeq : chunkFromAux words W step (f + 1) i =
        joinSp ((words.drop i).take W) ::
          chunkFromAux words W step f (i + step) := by
      simp [chunkFromAux, hi, hchunk]
    rw [hstepeq]
    by_cases hnext : i + step < words.length
    · rw [ih (i + step) (by omega) hnext]
      have hcnt : (words.length - i - 1) / step + 1 =
          ((words.length - (i + step) - 1) / step + 1) + 1 := by
        have h1 : words.length - i - 1 =
            (words.length - (i + step) - 1) + step := by omega
        rw [h1, Nat.add_div_right _ hstep]
      rw [hcnt]
      conv_rhs => rw [List.range_succ_eq_map, List.map_cons, List.map_map]
      congr 1
      · simp
      · refine List.map_congr_left ?_
        intro k _
        show joinSp ((words.drop (i + step + k * step)).take W) =
          joinSp ((words.drop (i + (k + 1) * step)).take W)
        have harith : i + (k + 1) * step = i + step + k * step := by ring
        rw [harith]
    · have hstop : chunkFromAux words W step f (i + step) = [] := by
        cases f with
        | zero => rfl
        | succ f2 => simp [chunkFromAux, Nat.not_lt.mpr (Nat.le_of_not_lt hnext)]
      rw [hstop]
      have hcnt : (words.length - i - 1) / step + 1 = 1 := by
        have hlt : words.length - i - 1 < step := by omega
        rw [Nat.div_eq_of_lt hlt]
      rw [hcnt]
      simp [List.range_succ]

/-- Two successive word windows of width `W` at starts `s` and
`s + (W − O)` overlap in exactly `min O remaining` positions, where
`remaining` is the length of the later window: the corresponding suffix
of the earlier window is the corresponding prefix of the later window. -/
theorem window_overlap {α : Type _} (l : List α) (s O W : Nat)
    (hO : O < W) (h2 : s + (W - O) < l.length) :
    ((l.drop s).take W).drop (((l.drop s).take W).length -
        min O ((l.drop (s + (W - O))).take W).length) =
      ((l.drop (s + (W - O))).take W).take
        (min O ((l.drop (s + (W - O))).take W).length) := by
  have hw1len : ((l.drop s).take W).length = min W (l.length - s) := by
    simp [Nat.min_comm]
  have hw2len : ((l.drop (s + (W - O))).take W).length =
      min W (l.length - (s + (W - O))) := by
    simp [Nat.min_comm]
  by_cases hcase : s + W ≤ l.length
  · have hl1 : ((l.drop s).take W).length = W := by rw [hw1len]; omega
    have hm : min O ((l.drop (s + (W - O))).take W).length = O := by
      rw [hw2len]; omega
    rw [hl1, hm, List.drop_take, List.drop_drop, List.take_take]
    have e1 : W - (W - O) = O := by omega
    have e2 : min O W = O := by omega
    rw [e1, e2]
  · have hl1 : ((l.drop s).take W).length = l.length - s := by
      rw [hw1len]; omega
    have hm : min O ((l.drop (s + (W - O))).take W).length =
        l.length - (s + (W - O)) := by
      rw [hw2len]; omega
    rw [hl1, hm]
    have hd : (l.length - s) - (l.length - (s + (W - O))) = W - O := by
      omega
    rw [hd, List.drop_take, List.drop_drop, List.take_take]
    have hlen2 : (l.drop (s + (W - O))).length =
        l.length - (s + (W - O)) := by rw [List.length_drop]
    rw [List.take_of_length_le (by rw [hlen2]; omega),
      List.take_of_length_le (by rw [hlen2]; omega)]

/-- C2: for a text of `N ≥ 1` whitespace-separated non-empty words,
window `W` and overlap `O < W`, `chunkText` produces a non-empty
sequence of exactly `ceil(N / (W − O))` chunks; chunk `k` is
`words[k·(W−O) : k·(W−O)+W]` joined by single spaces; and each pair of
consecutive chunks shares exactly `min(O, remaining)` words, the shared
words being a suffix of the earlier window and a prefix of the later
one. -/
theorem chunkText_spec (text : String) (words : List String) (W O : Nat)
    (hsplit : jsSplitWs text = words)
    (hw : ∀ w ∈ words, w ≠ "")
    (hN : 1 ≤ words.length) (hO : O < W) :
    (chunkText text W O).length = (words.length + (W - O) - 1) / (W - O) ∧
    chunkText text W O ≠ [] ∧
    (∀ k, k < (chunkText text W O).length →
      (chunkText text W O).get? k =
        some (joinSp ((words.drop (k * (W - O))).take W))) ∧
    (∀ k, k + 1 < (chunkText text W O).length →
      ((words.drop (k * (W - O))).take W).drop
          (((words.drop (k * (W - O))).take W).length -
            min O ((words.drop ((k + 1) * (W - O))).take W).length) =
        ((words.drop ((k + 1) * (W - O))).take W).take
          (min O ((words.drop ((k + 1) * (W - O))).take W).length)) := by
  have hstep : 1 ≤ W - O := by omega
  have hW : 1 ≤ W := by omega
  have hmain : chunkText text W O =
      (List.range ((words.length - 1) / (W - O) + 1)).map
        (fun k => joinSp ((words.drop (k * (W - O))).take W)) := by
    unfold chunkText
    rw [hsplit]
    rw [chunkFromAux_eq words W (W - O) hW hstep hw words.length 0
      (by omega) (by omega)]
    simp
  have hlen : (chunkText text W O).length =
      (words.length - 1) / (W - O) + 1 := by
    rw [hmain, List.length_map, List.length_range]
  refine ⟨?_, ?_, ?_, ?_⟩
  · rw [hlen]
    have harith : words.length + (W - O) - 1 =
        (words.length - 1) + (W - O) := by omega
    rw [harith, Nat.add_div_right _ hstep]
  · exact List.ne_nil_of_length_pos (by rw [hlen]; exact Nat.succ_pos _)
  · intro k hk
    rw [hlen] at hk
    rw [hmain, List.get?_eq_getElem?, List.getElem?_map,
      List.getElem?_range hk]
    rfl
  · intro k hk
    rw [hlen] at hk
    have hk2 : (k + 1) * (W - O) < words.length := by
      have hle : k + 1 ≤ (words.length - 1) / (W - O) := Nat.lt_succ_iff.mp hk
      have := (Nat.le_div_iff_mul_le hstep).mp hle
      omega
    have harith : (k + 1) * (W - O) = k * (W - O) + (W - O) := by ring
    rw [harith]
    exact window_overlap words (k * (W - O)) O W hO (by omega)

theorem chunkText_spec_witness :
    (chunkText "a b c d e" 2 1).length = 5 ∧
    chunkText "a b c d e" 2 1 ≠ [] ∧
    (chunkText "a b c d e" 2 1).get? 1 =
      some (joinSp (((["a", "b", "c", "d", "e"] : List String).drop 1).take 2)) := by
  have h := chunkText_spec "a b c d e" ["a", "b", "c", "d", "e"] 2 1
    (by decide) (by decide) (by decide) (by decide)
  refine ⟨?_, h.2.1, ?_⟩
  · rw [h.1]
    decide
  · have := h.2.2.1 1 (by rw [h.1]; decide)
    simpa using this

end Cerebro
